import Mathlib

set_option maxRecDepth 8000

/-!
Shallow embedding of the snowflake ID generator (package snowflake,
file snowflake.go) and proofs of its specification claims.

Modelling conventions:
* Machine integers (Go uint64) are Nat; where Go arithmetic can wrap,
  an explicit reduction modulo 2 ^ 64 is written out.
* Go time.Duration and time.Time are Int values counting nanoseconds
  (for time.Time: nanoseconds since the Unix epoch).  Multiplication of
  durations is int64 multiplication and wraps; int64Wrap models the
  two's-complement wrap and toInt64 the uint64 to int64 conversion.
* The wall clock is an input: a NextID call consumes readings from a
  list of ticks (each reading is the value Go computes as
  floor((now - epoch) / timeUnit)).  The busy-wait loops of NextID
  consume one reading per iteration.  Running out of readings models a
  call that is still blocked (Go would keep polling), returned as none.
* The generator is passed and returned explicitly; the mutex is not
  modelled (all theorems are about the serialized state machine, which
  is exactly what the mutex enforces in Go).
-/

/-- Error values of the package (Go: ErrInvalidNodeID, ErrInvalidVersion,
ErrClockRollback, ErrSequenceExhausted, and the inline
errors.New for timestamp overflow inside NextID). -/
inductive SnowflakeError where
  | invalidNodeID
  | invalidVersion
  | clockRollback
  | sequenceExhausted
  | timestampOverflow
deriving DecidableEq

/-- Go struct VersionLayout.  TimeUnit is in nanoseconds (Go
time.Duration); EpochNs is nanoseconds since the Unix epoch (Go
time.Time). -/
structure VersionLayout where
  Version : Nat
  VersionBits : Nat
  TimeBits : Nat
  NodeBits : Nat
  SequenceBits : Nat
  TimeUnit : Int
  EpochNs : Int
  MaxNodeID : Nat
  MaxSequence : Nat
  MaxTimestamp : Nat
deriving DecidableEq

/-- Days from 1970-01-01 to the given civil date (proleptic Gregorian),
used to justify the EpochNs literal below; standard civil-from-days
algorithm. -/
def daysFromCivil (y m d : Nat) : Int :=
  let yAdj := if m ≤ 2 then y - 1 else y
  let era := yAdj / 400
  let yoe := yAdj % 400
  let mp := (m + 9) % 12
  let doy := (153 * mp + 2) / 5 + d - 1
  let doe := yoe * 365 + yoe / 4 - yoe / 100 + doy
  (era : Int) * 146097 + (doe : Int) - 719468

/-- The Version0 entry of the versionLayouts registry.  The epoch
2026-01-01T00:00:00Z is 1767225600 seconds after the Unix epoch, and
TimeUnit is one millisecond = 1000000 ns. -/
def layoutV0 : VersionLayout where
  Version := 0
  VersionBits := 3
  TimeBits := 45
  NodeBits := 8
  SequenceBits := 8
  TimeUnit := 1000000
  EpochNs := 1767225600000000000
  MaxNodeID := (1 <<< 8) - 1
  MaxSequence := (1 <<< 8) - 1
  MaxTimestamp := (1 <<< 45) - 1

/-- The versionLayouts map: version 0 is the only registered version. -/
def versionLayouts (v : Nat) : Option VersionLayout :=
  if v = 0 then some layoutV0 else none

/-- Go struct Config. -/
structure Config where
  Version : Nat
  NodeID : Nat
deriving DecidableEq

/-- Go struct Generator (the mutex is not part of the state model; see
the header comment). -/
structure Generator where
  layout : VersionLayout
  nodeID : Nat
  lastTimestamp : Nat
  sequence : Nat
  versionShift : Nat
  timeShift : Nat
  nodeShift : Nat
deriving DecidableEq

/-- Go struct DecodedID; TimeNs is the Time field as nanoseconds since
the Unix epoch. -/
structure DecodedID where
  Version : Nat
  Timestamp : Nat
  NodeID : Nat
  Sequence : Nat
  TimeNs : Int
deriving DecidableEq

/-- Conversion of a Go uint64 value to int64 (two's complement
reinterpretation), as performed by the cast time.Duration(timestamp). -/
def toInt64 (n : Nat) : Int :=
  if n % 2 ^ 64 < 2 ^ 63 then ((n % 2 ^ 64 : Nat) : Int)
  else ((n % 2 ^ 64 : Nat) : Int) - 2 ^ 64

/-- Reduction of an integer into the int64 range by two's-complement
wrap-around, the result of Go int64 arithmetic overflow. -/
def int64Wrap (x : Int) : Int := (x + 2 ^ 63) % 2 ^ 64 - 2 ^ 63

/-- Go func NewGenerator(cfg Config) (*Generator, error). -/
def NewGenerator (cfg : Config) : Except SnowflakeError Generator :=
  match versionLayouts cfg.Version with
  | none => Except.error SnowflakeError.invalidVersion
  | some layout =>
    if cfg.NodeID > layout.MaxNodeID then Except.error SnowflakeError.invalidNodeID
    else Except.ok
      { layout := layout
        nodeID := cfg.NodeID
        lastTimestamp := 0
        sequence := 0
        versionShift := layout.SequenceBits + layout.NodeBits + layout.TimeBits
        timeShift := layout.SequenceBits + layout.NodeBits
        nodeShift := layout.SequenceBits }

/-- The ID-encoding expression of NextID (snowflake.go lines 150-156):
id := (uint64(version) << versionShift) | (timestamp << timeShift) |
(nodeID << nodeShift) | sequence, with each Go shift wrapping
modulo 2 ^ 64. -/
def encodeID (g : Generator) (timestamp : Nat) : Nat :=
  ((g.layout.Version <<< g.versionShift) % 2 ^ 64) |||
    ((timestamp <<< g.timeShift) % 2 ^ 64) |||
    ((g.nodeID <<< g.nodeShift) % 2 ^ 64) |||
    g.sequence

/-- The clock-rollback busy-wait of NextID (snowflake.go lines 127-133):
while the reading t is below lastTimestamp, sleep and re-read.  The
first argument t is the reading already in hand; further readings are
consumed from the list.  none models a wait that has not yet ended. -/
def rollbackWait (lastTimestamp t : Nat) : List Nat → Option (Nat × List Nat)
  | [] => if t < lastTimestamp then none else some (t, [])
  | t2 :: rest =>
    if t < lastTimestamp then rollbackWait lastTimestamp t2 rest
    else some (t, t2 :: rest)

/-- Go func (g *Generator) waitNextTimestamp(lastTimestamp uint64)
uint64 (snowflake.go lines 190-197): read the clock, then re-read while
the reading is at most lastTimestamp.  none models a wait that has not
yet ended. -/
def waitNextTimestamp (lastTimestamp : Nat) : List Nat → Option (Nat × List Nat)
  | [] => none
  | t :: rest =>
    if t ≤ lastTimestamp then waitNextTimestamp lastTimestamp rest
    else some (t, rest)

/-- Outcome of one NextID call: an error return carries the (unchanged)
generator, a success carries the id, the updated generator and the
unconsumed clock readings. -/
inductive NextIDResult where
  | err (e : SnowflakeError) (g : Generator)
  | ok (id : Nat) (g : Generator) (rest : List Nat)
deriving DecidableEq

/-- Go func (g *Generator) NextID() (uint64, error) (snowflake.go lines
117-157), with the clock readings supplied as a list; the head is the
reading of line 121.  none models a call still blocked in a wait
loop. -/
def NextID (g : Generator) : List Nat → Option NextIDResult
  | [] => none
  | t0 :: rest =>
    if t0 > g.layout.MaxTimestamp then
      some (NextIDResult.err SnowflakeError.timestampOverflow g)
    else
      match rollbackWait g.lastTimestamp t0 rest with
      | none => none
      | some (t1, rest1) =>
        if t1 = g.lastTimestamp then
          let seq := (g.sequence + 1) &&& g.layout.MaxSequence
          if seq = 0 then
            match waitNextTimestamp t1 rest1 with
            | none => none
            | some (t2, rest2) =>
              let g2 : Generator := { g with lastTimestamp := t2, sequence := seq }
              some (NextIDResult.ok (encodeID g2 t2) g2 rest2)
          else
            let g2 : Generator := { g with lastTimestamp := t1, sequence := seq }
            some (NextIDResult.ok (encodeID g2 t1) g2 rest1)
        else
          let g2 : Generator := { g with lastTimestamp := t1, sequence := 0 }
          some (NextIDResult.ok (encodeID g2 t1) g2 rest1)

/-- Go func extractVersion(id uint64) (Version, *VersionLayout)
(snowflake.go lines 205-209). -/
def extractVersion (id : Nat) : Nat × Option VersionLayout :=
  ((id >>> 61) &&& 0x07, versionLayouts ((id >>> 61) &&& 0x07))

/-- Go func Decode(id uint64) (*DecodedID, error) (snowflake.go lines
159-181).  The Time field is Epoch.Add(time.Duration(timestamp) *
TimeUnit); the duration product is int64 multiplication and wraps. -/
def Decode (id : Nat) : Except SnowflakeError DecodedID :=
  match extractVersion id with
  | (_, none) => Except.error SnowflakeError.invalidVersion
  | (version, some layout) =>
    let timeShift := layout.SequenceBits + layout.NodeBits
    let nodeShift := layout.SequenceBits
    let timestamp := (id >>> timeShift) &&& layout.MaxTimestamp
    let nodeID := (id >>> nodeShift) &&& layout.MaxNodeID
    let sequence := id &&& layout.MaxSequence
    let actualTimeNs := layout.EpochNs + int64Wrap (toInt64 timestamp * layout.TimeUnit)
    Except.ok
      { Version := version
        Timestamp := timestamp
        NodeID := nodeID
        Sequence := sequence
        TimeNs := actualTimeNs }

/-- Iterate NextID n times, collecting the ids of the successful calls;
stop at the first call that errors or is still blocked. -/
def runNextID : Generator → List Nat → Nat → List Nat
  | _, _, 0 => []
  | g, clock, n + 1 =>
    match NextID g clock with
    | some (NextIDResult.ok id g2 rest) => id :: runNextID g2 rest n
    | _ => []

/-- The mutable state of a generator, packed as one number: the pair
(lastTimestamp, sequence) in lexicographic order (sequence occupies the
low 16 bits far below its 255 bound). -/
def stateVal (g : Generator) : Nat := g.lastTimestamp * 2 ^ 16 + g.sequence

/-- Well-formedness of a version-0 generator: exactly what NewGenerator
establishes and what NextID preserves. -/
def GoodGen (g : Generator) : Prop :=
  g.layout = layoutV0 ∧ g.nodeID ≤ 255 ∧ g.sequence ≤ 255 ∧
    g.lastTimestamp ≤ layoutV0.MaxTimestamp ∧
    g.versionShift = 61 ∧ g.timeShift = 16 ∧ g.nodeShift = 8

instance (g : Generator) : Decidable (GoodGen g) := by
  unfold GoodGen
  infer_instance

/-- A generator over a given layout with the shift fields computed as
NewGenerator computes them, at an arbitrary mutable state. -/
def genFrom (layout : VersionLayout) (nodeID lastTimestamp sequence : Nat) : Generator where
  layout := layout
  nodeID := nodeID
  lastTimestamp := lastTimestamp
  sequence := sequence
  versionShift := layout.SequenceBits + layout.NodeBits + layout.TimeBits
  timeShift := layout.SequenceBits + layout.NodeBits
  nodeShift := layout.SequenceBits

/-- The timestamp field of an encoded id, read the way Decode reads it
for the version-0 layout. -/
def timestampField (id : Nat) : Nat :=
  (id >>> (layoutV0.SequenceBits + layoutV0.NodeBits)) &&& layoutV0.MaxTimestamp

/-- A concrete well-formed generator used by the witnesses: version 0,
node 1, fresh state. -/
def gEx : Generator := genFrom layoutV0 1 0 0

/-! ### Helper lemmas -/

theorem mul_pow_lor_eq_add : ∀ (n a b : Nat), b < 2 ^ n → (a * 2 ^ n) ||| b = a * 2 ^ n + b
  | 0, a, b, hb => by
    have hb0 : b = 0 := by omega
    subst hb0
    simp
  | n + 1, a, b, hb => by
    have hpow : 2 ^ (n + 1) = 2 ^ n * 2 := by rw [Nat.pow_succ]
    have hb2 : b / 2 < 2 ^ n := by omega
    have IH := mul_pow_lor_eq_add n a (b / 2) hb2
    have hax : a * 2 ^ (n + 1) = a * 2 ^ n * 2 := by rw [hpow, Nat.mul_assoc]
    have hxdiv : a * 2 ^ (n + 1) / 2 = a * 2 ^ n := by
      rw [hax]
      exact Nat.mul_div_cancel _ (by omega)
    have hxmod : a * 2 ^ (n + 1) % 2 = 0 := by
      rw [hax]
      exact Nat.mul_mod_left _ 2
    have hdiv : (a * 2 ^ (n + 1) ||| b) / 2 = a * 2 ^ n ||| b / 2 := by
      rw [Nat.or_div_two, hxdiv]
    have hmod : (a * 2 ^ (n + 1) ||| b) % 2 = b % 2 := by
      rcases Nat.mod_two_eq_zero_or_one b with hb1 | hb1
      · rcases Nat.mod_two_eq_zero_or_one (a * 2 ^ (n + 1) ||| b) with h | h
        · omega
        · have := Nat.or_mod_two_eq_one.mp h
          omega
      · have := (@Nat.or_mod_two_eq_one (a * 2 ^ (n + 1)) b).mpr (Or.inr hb1)
        omega
    have hsplit := Nat.div_add_mod (a * 2 ^ (n + 1) ||| b) 2
    rw [hdiv, hmod, IH] at hsplit
    have hbdm := Nat.div_add_mod b 2
    omega

theorem land_255_eq_mod (x : Nat) : x &&& 255 = x % 256 := by
  have h := Nat.and_pow_two_sub_one_eq_mod x 8
  norm_num at h
  exact h

theorem land_7_eq_mod (x : Nat) : x &&& 7 = x % 8 := by
  have h := Nat.and_pow_two_sub_one_eq_mod x 3
  norm_num at h
  exact h

theorem land_maxT_eq_mod (x : Nat) : x &&& (2 ^ 45 - 1) = x % 2 ^ 45 :=
  Nat.and_pow_two_sub_one_eq_mod x 45

theorem layoutV0_MaxSequence : layoutV0.MaxSequence = 255 := rfl

theorem layoutV0_MaxNodeID : layoutV0.MaxNodeID = 255 := rfl

theorem layoutV0_MaxTimestamp : layoutV0.MaxTimestamp = 2 ^ 45 - 1 := by decide

theorem versionLayouts_some {v : Nat} {layout : VersionLayout}
    (h : versionLayouts v = some layout) : v = 0 ∧ layout = layoutV0 := by
  unfold versionLayouts at h
  by_cases hv : v = 0
  · subst hv
    simp at h
    exact ⟨rfl, h.symm⟩
  · simp [hv] at h

theorem rollbackWait_sound :
    ∀ (rs : List Nat) (last t t2 : Nat) (rs2 : List Nat),
      rollbackWait last t rs = some (t2, rs2) →
      last ≤ t2 ∧ (t2 = t ∨ t2 ∈ rs) ∧ List.IsSuffix rs2 rs
  | [], last, t, t2, rs2, h => by
    unfold rollbackWait at h
    split at h
    · exact absurd h (by simp)
    · simp at h
      obtain ⟨rfl, rfl⟩ := h
      exact ⟨by omega, Or.inl rfl, List.suffix_refl _⟩
  | t3 :: rest, last, t, t2, rs2, h => by
    unfold rollbackWait at h
    split at h
    · have := rollbackWait_sound rest last t3 t2 rs2 h
      refine ⟨this.1, ?_, this.2.2.trans (List.suffix_cons _ _)⟩
      rcases this.2.1 with h1 | h1
      · exact Or.inr (h1 ▸ List.mem_cons_self _ _)
      · exact Or.inr (List.mem_cons_of_mem _ h1)
    · simp at h
      obtain ⟨rfl, rfl⟩ := h
      exact ⟨by omega, Or.inl rfl, List.suffix_refl _⟩

theorem waitNextTimestamp_sound :
    ∀ (rs : List Nat) (last t2 : Nat) (rs2 : List Nat),
      waitNextTimestamp last rs = some (t2, rs2) →
      last < t2 ∧ t2 ∈ rs ∧ List.IsSuffix rs2 rs
  | [], last, t2, rs2, h => by exact absurd h (by simp [waitNextTimestamp])
  | t :: rest, last, t2, rs2, h => by
    unfold waitNextTimestamp at h
    split at h
    · have := waitNextTimestamp_sound rest last t2 rs2 h
      exact ⟨this.1, List.mem_cons_of_mem _ this.2.1,
        this.2.2.trans (List.suffix_cons _ _)⟩
    · simp at h
      obtain ⟨rfl, rfl⟩ := h
      exact ⟨by omega, List.mem_cons_self _ _, List.suffix_cons _ _⟩

theorem layoutV0_SequenceBits : layoutV0.SequenceBits = 8 := rfl

theorem layoutV0_NodeBits : layoutV0.NodeBits = 8 := rfl

theorem layoutV0_TimeBits : layoutV0.TimeBits = 45 := rfl

theorem layoutV0_Version : layoutV0.Version = 0 := rfl

theorem layoutV0_TimeUnit : layoutV0.TimeUnit = 1000000 := rfl

theorem encodeID_v0 (g : Generator) (t : Nat) (hl : g.layout = layoutV0)
    (hvs : g.versionShift = 61) (hts : g.timeShift = 16) (hns : g.nodeShift = 8)
    (hn : g.nodeID ≤ 255) (hs : g.sequence ≤ 255) (ht : t ≤ 2 ^ 45 - 1) :
    encodeID g t = t * 2 ^ 16 + g.nodeID * 2 ^ 8 + g.sequence := by
  unfold encodeID
  rw [hl, hvs, hts, hns, layoutV0_Version, Nat.zero_shiftLeft]
  simp only [Nat.shiftLeft_eq]
  have h1 : t * 2 ^ 16 % 2 ^ 64 = t * 2 ^ 16 := Nat.mod_eq_of_lt (by omega)
  have h2 : g.nodeID * 2 ^ 8 % 2 ^ 64 = g.nodeID * 2 ^ 8 := Nat.mod_eq_of_lt (by omega)
  rw [Nat.zero_mod, Nat.zero_or, h1, h2]
  rw [mul_pow_lor_eq_add 16 t (g.nodeID * 2 ^ 8) (by omega)]
  have h4 : t * 2 ^ 16 + g.nodeID * 2 ^ 8 = (t * 2 ^ 8 + g.nodeID) * 2 ^ 8 := by ring
  rw [h4, mul_pow_lor_eq_add 8 _ g.sequence (by omega)]

theorem extractVersion_lt (id : Nat) (h : id < 2 ^ 61) :
    extractVersion id = (0, some layoutV0) := by
  unfold extractVersion
  have h61 : id >>> 61 = 0 := by
    rw [Nat.shiftRight_eq_div_pow]
    exact Nat.div_eq_of_lt h
  rw [h61]
  decide

theorem Decode_fields_v0 (t n s : Nat) (ht : t ≤ 2 ^ 45 - 1) (hn : n ≤ 255) (hs : s ≤ 255) :
    Decode (t * 2 ^ 16 + n * 2 ^ 8 + s) =
      Except.ok
        { Version := 0
          Timestamp := t
          NodeID := n
          Sequence := s
          TimeNs := layoutV0.EpochNs + int64Wrap (toInt64 t * layoutV0.TimeUnit) } := by
  have hE : t * 2 ^ 16 + n * 2 ^ 8 + s < 2 ^ 61 := by omega
  have h16 : (t * 2 ^ 16 + n * 2 ^ 8 + s) >>> 16 = t := by
    rw [Nat.shiftRight_eq_div_pow]
    omega
  have h8 : (t * 2 ^ 16 + n * 2 ^ 8 + s) >>> 8 = t * 2 ^ 8 + n := by
    rw [Nat.shiftRight_eq_div_pow]
    omega
  have htsF : (t * 2 ^ 16 + n * 2 ^ 8 + s) >>> 16 &&& (2 ^ 45 - 1) = t := by
    rw [h16, land_maxT_eq_mod]
    omega
  have hnF : (t * 2 ^ 16 + n * 2 ^ 8 + s) >>> 8 &&& 255 = n := by
    rw [h8, land_255_eq_mod]
    omega
  have hsF : (t * 2 ^ 16 + n * 2 ^ 8 + s) &&& 255 = s := by
    rw [land_255_eq_mod]
    omega
  simp only [Decode, extractVersion_lt _ hE, layoutV0_SequenceBits, layoutV0_NodeBits,
    layoutV0_MaxTimestamp, layoutV0_MaxNodeID, layoutV0_MaxSequence]
  norm_num
  norm_num at htsF hnF hsF
  exact ⟨htsF, hnF, hsF, by rw [htsF]⟩

theorem nextID_ok_spec {g : Generator} {clock : List Nat} {id : Nat} {g2 : Generator}
    {rest : List Nat} (hg : GoodGen g) (hc : ∀ t ∈ clock, t ≤ layoutV0.MaxTimestamp)
    (h : NextID g clock = some (NextIDResult.ok id g2 rest)) :
    GoodGen g2 ∧ g2.nodeID = g.nodeID ∧ List.IsSuffix rest clock ∧
      stateVal g < stateVal g2 ∧ id = stateVal g2 + g.nodeID * 2 ^ 8 := by
  obtain ⟨hl, hnd, hsq, hlast, hvs, hts, hns⟩ := hg
  have hmax : layoutV0.MaxTimestamp = 2 ^ 45 - 1 := layoutV0_MaxTimestamp
  match clock with
  | [] => exact absurd h (by simp [NextID])
  | t0 :: rest0 =>
    have hc0 : t0 ≤ 2 ^ 45 - 1 := hmax ▸ hc t0 (List.mem_cons_self _ _)
    simp only [NextID] at h
    rw [hl, hmax] at h
    rw [if_neg (by omega)] at h
    cases hrb : rollbackWait g.lastTimestamp t0 rest0 with
    | none => rw [hrb] at h; simp at h
    | some pr =>
      obtain ⟨t1, rest1⟩ := pr
      obtain ⟨hrb1, hrb2, hrb3⟩ := rollbackWait_sound rest0 g.lastTimestamp t0 t1 rest1 hrb
      have ht1max : t1 ≤ 2 ^ 45 - 1 := by
        rcases hrb2 with h1 | h1
        · omega
        · have := hc t1 (List.mem_cons_of_mem _ h1)
          omega
      rw [hrb] at h
      dsimp only at h
      by_cases ht1 : t1 = g.lastTimestamp
      · rw [if_pos ht1] at h
        have hseqbound : (g.sequence + 1) &&& layoutV0.MaxSequence ≤ 255 :=
          layoutV0_MaxSequence ▸ Nat.and_le_right
        have hseqval : (g.sequence + 1) &&& layoutV0.MaxSequence = (g.sequence + 1) % 256 :=
          layoutV0_MaxSequence ▸ land_255_eq_mod (g.sequence + 1)
        by_cases hseq : (g.sequence + 1) &&& layoutV0.MaxSequence = 0
        · rw [if_pos hseq] at h
          cases hwn : waitNextTimestamp t1 rest1 with
          | none => rw [hwn] at h; simp at h
          | some pr2 =>
            obtain ⟨t2, rest2⟩ := pr2
            obtain ⟨hwn1, hwn2, hwn3⟩ := waitNextTimestamp_sound rest1 t1 t2 rest2 hwn
            rw [hwn] at h
            dsimp only at h
            simp only [Option.some.injEq, NextIDResult.ok.injEq] at h
            obtain ⟨hid, hg2, hrest⟩ := h
            subst hg2
            subst hrest
            have ht2max : t2 ≤ 2 ^ 45 - 1 := by
              have := hc t2 (List.mem_cons_of_mem _ (hrb3.subset hwn2))
              omega
            refine ⟨⟨rfl, by simpa using hnd, by simpa using hseqbound, ?_, by simpa using hvs,
              by simpa using hts, by simpa using hns⟩, by simpa using rfl, ?_, ?_, ?_⟩
            · simpa [hmax] using ht2max
            · exact (hwn3.trans hrb3).trans (List.suffix_cons _ _)
            · simp only [stateVal]
              omega
            · rw [← hid]
              rw [encodeID_v0 _ _ (by simpa using rfl) (by simpa using hvs) (by simpa using hts)
                (by simpa using hns) (by simpa using hnd) (by simpa using hseqbound) ht2max]
              simp only [stateVal]
              omega
        · rw [if_neg hseq] at h
          simp only [Option.some.injEq, NextIDResult.ok.injEq] at h
          obtain ⟨hid, hg2, hrest⟩ := h
          subst hg2
          subst hrest
          refine ⟨⟨rfl, by simpa using hnd, by simpa using hseqbound, ?_, by simpa using hvs,
            by simpa using hts, by simpa using hns⟩, by simpa using rfl, ?_, ?_, ?_⟩
          · simp only [hmax]
            simpa using ht1max
          · exact hrb3.trans (List.suffix_cons _ _)
          · simp only [stateVal]
            omega
          · rw [← hid]
            rw [encodeID_v0 _ _ (by simpa using rfl) (by simpa using hvs) (by simpa using hts)
              (by simpa using hns) (by simpa using hnd) (by simpa using hseqbound) ht1max]
            simp only [stateVal]
            omega
      · rw [if_neg ht1] at h
        simp only [Option.some.injEq, NextIDResult.ok.injEq] at h
        obtain ⟨hid, hg2, hrest⟩ := h
        subst hg2
        subst hrest
        have hgt : g.lastTimestamp < t1 := by omega
        refine ⟨⟨rfl, by simpa using hnd, by simp, ?_, by simpa using hvs,
          by simpa using hts, by simpa using hns⟩, by simpa using rfl, ?_, ?_, ?_⟩
        · simp only [hmax]
          simpa using ht1max
        · exact hrb3.trans (List.suffix_cons _ _)
        · simp only [stateVal]
          omega
        · rw [← hid]
          rw [encodeID_v0 _ _ (by simpa using rfl) (by simpa using hvs) (by simpa using hts)
            (by simpa using hns) (by simpa using hnd) (by simp) ht1max]
          simp only [stateVal]
          omega

theorem runNextID_spec :
    ∀ (n : Nat) (g : Generator) (clock : List Nat), GoodGen g →
      (∀ t ∈ clock, t ≤ layoutV0.MaxTimestamp) →
      List.Pairwise (· < ·) (runNextID g clock n) ∧
        ∀ id ∈ runNextID g clock n,
          stateVal g + g.nodeID * 2 ^ 8 < id ∧
            ∃ t s, t ≤ layoutV0.MaxTimestamp ∧ s ≤ 255 ∧
              id = t * 2 ^ 16 + g.nodeID * 2 ^ 8 + s
  | 0, g, clock, _, _ => by simp [runNextID]
  | n + 1, g, clock, hg, hc => by
    cases hstep : NextID g clock with
    | none => simp [runNextID, hstep]
    | some r =>
      cases r with
      | err e g2 => simp [runNextID, hstep]
      | ok id g2 rest =>
        obtain ⟨hg2, hnode, hsuffix, hstate, hid⟩ := nextID_ok_spec hg hc hstep
        have hc2 : ∀ t ∈ rest, t ≤ layoutV0.MaxTimestamp := fun t ht => hc t (hsuffix.subset ht)
        obtain ⟨hpw, hmem⟩ := runNextID_spec n g2 rest hg2 hc2
        have hrun : runNextID g clock (n + 1) = id :: runNextID g2 rest n := by
          simp [runNextID, hstep]
        rw [hrun]
        constructor
        · refine List.pairwise_cons.mpr ⟨?_, hpw⟩
          intro b hb
          have := (hmem b hb).1
          omega
        · intro b hb
          rcases List.mem_cons.mp hb with hb1 | hb1
          · subst hb1
            refine ⟨by omega, ?_⟩
            obtain ⟨_, hnd2, hsq2, hlast2, _, _, _⟩ := hg2
            refine ⟨g2.lastTimestamp, g2.sequence, hlast2, hsq2, ?_⟩
            simp only [stateVal] at hid
            omega
          · obtain ⟨hlt, t, s, hts, hss, heq⟩ := hmem b hb1
            refine ⟨by omega, t, s, hts, hss, ?_⟩
            rw [heq, hnode]

theorem nextID_err_iff (g : Generator) (t0 : Nat) (rest : List Nat) (e : SnowflakeError)
    (g2 : Generator) :
    NextID g (t0 :: rest) = some (NextIDResult.err e g2) ↔
      g.layout.MaxTimestamp < t0 ∧ e = SnowflakeError.timestampOverflow ∧ g2 = g := by
  simp only [NextID]
  by_cases h : t0 > g.layout.MaxTimestamp
  · rw [if_pos h]
    simp only [Option.some.injEq, NextIDResult.err.injEq]
    constructor
    · rintro ⟨he, hgg⟩
      exact ⟨h, he.symm, hgg.symm⟩
    · rintro ⟨-, rfl, rfl⟩
      exact ⟨rfl, rfl⟩
  · rw [if_neg h]
    constructor
    · intro hcontra
      exfalso
      cases hrb : rollbackWait g.lastTimestamp t0 rest with
      | none => rw [hrb] at hcontra; simp at hcontra
      | some pr =>
        obtain ⟨t1, rest1⟩ := pr
        rw [hrb] at hcontra
        dsimp only at hcontra
        by_cases ht1 : t1 = g.lastTimestamp
        · rw [if_pos ht1] at hcontra
          by_cases hseq : (g.sequence + 1) &&& g.layout.MaxSequence = 0
          · rw [if_pos hseq] at hcontra
            cases hwn : waitNextTimestamp t1 rest1 with
            | none => rw [hwn] at hcontra; simp at hcontra
            | some pr2 =>
              obtain ⟨t2, rest2⟩ := pr2
              rw [hwn] at hcontra
              simp at hcontra
          · rw [if_neg hseq] at hcontra
            simp at hcontra
        · rw [if_neg ht1] at hcontra
          simp at hcontra
    · intro hcontra
      exact absurd hcontra.1 h

theorem toInt64_of_small {n : Nat} (h : n < 2 ^ 63) : toInt64 n = (n : Int) := by
  unfold toInt64
  have hmod : n % 2 ^ 64 = n := Nat.mod_eq_of_lt (by omega)
  rw [hmod, if_pos h]

theorem int64Wrap_of_small {x : Int} (h0 : 0 ≤ x) (h : x < 2 ^ 63) : int64Wrap x = x := by
  unfold int64Wrap
  have hmod : (x + 2 ^ 63) % 2 ^ 64 = x + 2 ^ 63 :=
    Int.emod_eq_of_lt (by omega) (by omega)
  omega

theorem timestampField_encode (t n s : Nat) (ht : t ≤ 2 ^ 45 - 1) (hn : n ≤ 255)
    (hs : s ≤ 255) : timestampField (t * 2 ^ 16 + n * 2 ^ 8 + s) = t := by
  unfold timestampField
  rw [layoutV0_SequenceBits, layoutV0_NodeBits, layoutV0_MaxTimestamp]
  have h16 : (t * 2 ^ 16 + n * 2 ^ 8 + s) >>> (8 + 8) = t := by
    rw [Nat.shiftRight_eq_div_pow]
    omega
  rw [h16, land_maxT_eq_mod]
  omega

/-! ### Claim theorems -/

/-- C1: modelling NextID as a step relation on (lastTimestamp, sequence)
driven by a list of clock readings, the ids returned by successive
successful NextID calls on one well-formed generator are strictly
increasing (strictly increasing in time-tick across ticks, strictly
increasing in sequence within a tick, as the step lemma shows), so any
run of N successful calls yields N pairwise-distinct ids. -/
theorem C1_next_ids_strictly_increasing (g : Generator) (clock : List Nat) (n : Nat)
    (hg : GoodGen g) (hc : ∀ t ∈ clock, t ≤ layoutV0.MaxTimestamp) :
    List.Pairwise (· < ·) (runNextID g clock n) ∧ (runNextID g clock n).Nodup := by
  obtain ⟨hpw, -⟩ := runNextID_spec n g clock hg hc
  exact ⟨hpw, hpw.imp Nat.ne_of_lt⟩

/-- Witness for C1 at a concrete generator and clock trace. -/
theorem C1_witness :
    List.Pairwise (· < ·) (runNextID gEx [3, 3, 3, 7, 9] 4) ∧
      (runNextID gEx [3, 3, 3, 7, 9] 4).Nodup :=
  C1_next_ids_strictly_increasing gEx [3, 3, 3, 7, 9] 4 (by decide) (by decide)

/-- C2: for every registered version and in-range field values, decoding
an id encoded the way NextID encodes recovers version, timestamp, node
id and sequence exactly. -/
theorem C2_roundtrip (v : Nat) (layout : VersionLayout) (nodeID t s : Nat)
    (hv : versionLayouts v = some layout) (hn : nodeID ≤ layout.MaxNodeID)
    (ht : t ≤ layout.MaxTimestamp) (hs : s ≤ layout.MaxSequence) :
    ∃ d, Decode (encodeID (genFrom layout nodeID t s) t) = Except.ok d ∧
      d.Version = v ∧ d.Timestamp = t ∧ d.NodeID = nodeID ∧ d.Sequence = s := by
  obtain ⟨rfl, rfl⟩ := versionLayouts_some hv
  have hn2 : nodeID ≤ 255 := layoutV0_MaxNodeID ▸ hn
  have hs2 : s ≤ 255 := layoutV0_MaxSequence ▸ hs
  have ht2 : t ≤ 2 ^ 45 - 1 := layoutV0_MaxTimestamp ▸ ht
  have henc : encodeID (genFrom layoutV0 nodeID t s) t = t * 2 ^ 16 + nodeID * 2 ^ 8 + s :=
    encodeID_v0 _ _ rfl rfl rfl rfl hn2 hs2 ht2
  rw [henc, Decode_fields_v0 t nodeID s ht2 hn2 hs2]
  exact ⟨_, rfl, rfl, rfl, rfl, rfl⟩

/-- Witness for C2 at concrete field values. -/
theorem C2_witness :
    ∃ d, Decode (encodeID (genFrom layoutV0 7 1234 56) 1234) = Except.ok d ∧
      d.Version = 0 ∧ d.Timestamp = 1234 ∧ d.NodeID = 7 ∧ d.Sequence = 56 :=
  C2_roundtrip 0 layoutV0 7 1234 56 (by decide) (by decide) (by decide) (by decide)

/-- C3: the wait loops block rather than fail — rollbackWait resumes
only with a tick at least lastTimestamp, waitNextTimestamp only with a
tick strictly beyond it, NextID never returns a clock-rollback or
sequence-exhaustion error, and consequently the timestamp fields of the
ids emitted by a run never decrease. -/
theorem C3_never_smaller_timestamp :
    (∀ (last t : Nat) (rs : List Nat) (t2 : Nat) (rs2 : List Nat),
        rollbackWait last t rs = some (t2, rs2) → last ≤ t2) ∧
      (∀ (last : Nat) (rs : List Nat) (t2 : Nat) (rs2 : List Nat),
          waitNextTimestamp last rs = some (t2, rs2) → last < t2) ∧
      (∀ (g : Generator) (t0 : Nat) (rest : List Nat) (e : SnowflakeError) (g2 : Generator),
          NextID g (t0 :: rest) = some (NextIDResult.err e g2) →
            e ≠ SnowflakeError.clockRollback ∧ e ≠ SnowflakeError.sequenceExhausted) ∧
      ∀ (g : Generator) (clock : List Nat) (n : Nat), GoodGen g →
        (∀ t ∈ clock, t ≤ layoutV0.MaxTimestamp) →
        List.Pairwise (fun a b => timestampField a ≤ timestampField b) (runNextID g clock n) := by
  refine ⟨fun last t rs t2 rs2 h => (rollbackWait_sound rs last t t2 rs2 h).1,
    fun last rs t2 rs2 h => (waitNextTimestamp_sound rs last t2 rs2 h).1,
    fun g t0 rest e g2 h => ?_, fun g clock n hg hc => ?_⟩
  · obtain ⟨-, rfl, -⟩ := (nextID_err_iff g t0 rest e g2).mp h
    exact ⟨by simp, by simp⟩
  · obtain ⟨hpw, hmem⟩ := runNextID_spec n g clock hg hc
    obtain ⟨hl, hnd, -, -, -, -, -⟩ := hg
    have hmaxT : layoutV0.MaxTimestamp = 2 ^ 45 - 1 := layoutV0_MaxTimestamp
    refine hpw.imp_of_mem ?_
    intro a b ha hb hab
    obtain ⟨-, ta, sa, hta, hsa, heqa⟩ := hmem a ha
    obtain ⟨-, tb, sb, htb, hsb, heqb⟩ := hmem b hb
    subst heqa
    subst heqb
    rw [timestampField_encode ta g.nodeID sa (by omega) hnd hsa,
      timestampField_encode tb g.nodeID sb (by omega) hnd hsb]
    omega

/-- Witness for C3 at a concrete run. -/
theorem C3_witness :
    List.Pairwise (fun a b => timestampField a ≤ timestampField b)
      (runNextID gEx [2, 2, 2, 5] 3) :=
  C3_never_smaller_timestamp.2.2.2 gEx [2, 2, 2, 5] 3 (by decide) (by decide)

/-- C4: a NextID call fails exactly when the tick computed from the
first clock reading exceeds the layout's MaxTimestamp, the error is the
timestamp-overflow error, and the generator state is unchanged on
error. -/
theorem C4_error_iff_overflow (g : Generator) (t0 : Nat) (rest : List Nat)
    (e : SnowflakeError) (g2 : Generator) :
    NextID g (t0 :: rest) = some (NextIDResult.err e g2) ↔
      g.layout.MaxTimestamp < t0 ∧ e = SnowflakeError.timestampOverflow ∧ g2 = g :=
  nextID_err_iff g t0 rest e g2

/-- Witness for C4 at an overflowing first reading. -/
theorem C4_witness :
    NextID gEx [2 ^ 45] = some (NextIDResult.err SnowflakeError.timestampOverflow gEx) :=
  (C4_error_iff_overflow gEx (2 ^ 45) [] SnowflakeError.timestampOverflow gEx).mpr
    ⟨by decide, rfl, rfl⟩

/-- C5: the top three bits of an encoded id hold exactly the encoding
layout's version, both for the encoding expression over any registered
layout and for every id produced by a run of NextID. -/
theorem C5_version_extraction :
    (∀ (v : Nat) (layout : VersionLayout) (nodeID t s : Nat),
        versionLayouts v = some layout → nodeID ≤ layout.MaxNodeID →
          t ≤ layout.MaxTimestamp → s ≤ layout.MaxSequence →
          (extractVersion (encodeID (genFrom layout nodeID t s) t)).1 = v) ∧
      ∀ (g : Generator) (clock : List Nat) (n : Nat), GoodGen g →
        (∀ t ∈ clock, t ≤ layoutV0.MaxTimestamp) →
        ∀ id ∈ runNextID g clock n, (extractVersion id).1 = g.layout.Version := by
  constructor
  · intro v layout nodeID t s hv hn ht hs
    obtain ⟨rfl, rfl⟩ := versionLayouts_some hv
    have hn2 : nodeID ≤ 255 := layoutV0_MaxNodeID ▸ hn
    have hs2 : s ≤ 255 := layoutV0_MaxSequence ▸ hs
    have ht2 : t ≤ 2 ^ 45 - 1 := layoutV0_MaxTimestamp ▸ ht
    have henc : encodeID (genFrom layoutV0 nodeID t s) t = t * 2 ^ 16 + nodeID * 2 ^ 8 + s :=
      encodeID_v0 _ _ rfl rfl rfl rfl hn2 hs2 ht2
    rw [henc, extractVersion_lt _ (by omega)]
  · intro g clock n hg hc id hid
    obtain ⟨-, hmem⟩ := runNextID_spec n g clock hg hc
    obtain ⟨hl, hnd, -, -, -, -, -⟩ := hg
    have hmaxT : layoutV0.MaxTimestamp = 2 ^ 45 - 1 := layoutV0_MaxTimestamp
    obtain ⟨-, t, s, ht, hs, rfl⟩ := hmem id hid
    rw [extractVersion_lt _ (by omega), hl, layoutV0_Version]

/-- Witness for C5 at concrete field values. -/
theorem C5_witness :
    (extractVersion (encodeID (genFrom layoutV0 3 99 200) 99)).1 = 0 :=
  C5_version_extraction.1 0 layoutV0 3 99 200 (by decide) (by decide) (by decide) (by decide)

/-- C6: NewGenerator fails with the unsupported-version error exactly
when the version is not registered, fails with the invalid-node-id
error exactly when the version is registered but the node id exceeds
the layout's MaxNodeID, succeeds otherwise; concretely, version 0
accepts node 255, rejects node 256, and version 99 is rejected for any
node. -/
theorem C6_newGenerator_validation :
    (∀ v nodeID : Nat,
        (NewGenerator ⟨v, nodeID⟩ = Except.error SnowflakeError.invalidVersion ↔
          versionLayouts v = none) ∧
        (∀ layout, versionLayouts v = some layout →
          (NewGenerator ⟨v, nodeID⟩ = Except.error SnowflakeError.invalidNodeID ↔
            layout.MaxNodeID < nodeID)) ∧
        ((∃ g, NewGenerator ⟨v, nodeID⟩ = Except.ok g) ↔
          ∃ layout, versionLayouts v = some layout ∧ nodeID ≤ layout.MaxNodeID)) ∧
      (∃ g, NewGenerator ⟨0, 255⟩ = Except.ok g) ∧
      NewGenerator ⟨0, 256⟩ = Except.error SnowflakeError.invalidNodeID ∧
      ∀ nodeID : Nat, NewGenerator ⟨99, nodeID⟩ = Except.error SnowflakeError.invalidVersion := by
  refine ⟨fun v nodeID => ?_, ⟨_, rfl⟩, rfl, fun nodeID => rfl⟩
  simp only [NewGenerator]
  cases hv : versionLayouts v with
  | none =>
    refine ⟨by simp, fun layout hlay => by simp [hv] at hlay, ?_⟩
    simp
  | some layout =>
    dsimp only
    by_cases hnode : nodeID > layout.MaxNodeID
    · rw [if_pos hnode]
      refine ⟨by simp, ?_, ?_⟩
      · intro layout2 hlay2
        obtain rfl : layout = layout2 := by injection hlay2
        simp [hnode]
      · constructor
        · rintro ⟨g, hgeq⟩
          simp at hgeq
        · rintro ⟨layout2, hlay2, hle⟩
          obtain rfl : layout = layout2 := by injection hlay2
          omega
    · rw [if_neg hnode]
      refine ⟨by simp, ?_, ?_⟩
      · intro layout2 hlay2
        obtain rfl : layout = layout2 := by injection hlay2
        simp
        omega
      · constructor
        · intro
          exact ⟨layout, rfl, by omega⟩
        · intro
          exact ⟨_, rfl⟩

/-- Witness for C6 (the node-id bound at a registered version). -/
theorem C6_witness :
    NewGenerator ⟨0, 300⟩ = Except.error SnowflakeError.invalidNodeID :=
  ((C6_newGenerator_validation.1 0 300).2.1 layoutV0 (by decide)).mpr (by decide)

/-- C8: the version-0 registry entry has the claimed bit widths (which
sum to 64), a one-millisecond time unit, the 2026-01-01T00:00:00Z epoch
(checked against a civil-calendar day count), and derived maxima
2 ^ 8 - 1, 2 ^ 8 - 1 and 2 ^ 45 - 1. -/
theorem C8_layoutV0_fields :
    layoutV0.VersionBits = 3 ∧ layoutV0.TimeBits = 45 ∧ layoutV0.NodeBits = 8 ∧
      layoutV0.SequenceBits = 8 ∧
      layoutV0.VersionBits + layoutV0.TimeBits + layoutV0.NodeBits + layoutV0.SequenceBits = 64 ∧
      layoutV0.TimeUnit = 1000000 ∧
      layoutV0.EpochNs = daysFromCivil 2026 1 1 * 86400 * 1000000000 ∧
      layoutV0.MaxNodeID = 2 ^ 8 - 1 ∧ layoutV0.MaxNodeID = 255 ∧
      layoutV0.MaxSequence = 2 ^ 8 - 1 ∧ layoutV0.MaxSequence = 255 ∧
      layoutV0.MaxTimestamp = 2 ^ 45 - 1 ∧
      versionLayouts 0 = some layoutV0 ∧ layoutV0.Version = 0 := by
  refine ⟨rfl, rfl, rfl, rfl, rfl, rfl, by decide, by decide, by decide, by decide, by decide,
    by decide, rfl, rfl⟩

theorem decodeTime_eq (ts : Nat) (hts : ts ≤ 2 ^ 45 - 1)
    (hlt : (ts : Int) * layoutV0.TimeUnit < 2 ^ 63) :
    layoutV0.EpochNs + int64Wrap (toInt64 ts * layoutV0.TimeUnit) =
      layoutV0.EpochNs + (ts : Int) * layoutV0.TimeUnit := by
  rw [toInt64_of_small (by omega)]
  rw [int64Wrap_of_small (mul_nonneg (Int.natCast_nonneg ts) (by decide)) hlt]

/-- C7 (amended): Decode resolves the layout from the id's top three
bits, failing exactly when that version is unregistered; on success the
Timestamp, NodeID and Sequence fields are the claimed shift-and-mask
projections, and the absolute time equals epoch + Timestamp x timeUnit
PROVIDED that product fits in int64 (the Go duration multiplication
wraps otherwise, see the counterexample). -/
theorem C7_decode_spec :
    (∀ id : Nat, Decode id = Except.error SnowflakeError.invalidVersion ↔
        versionLayouts ((id >>> 61) &&& 0x07) = none) ∧
      ∀ (id : Nat) (layout : VersionLayout),
        versionLayouts ((id >>> 61) &&& 0x07) = some layout →
        ∃ d, Decode id = Except.ok d ∧
          d.Version = (id >>> 61) &&& 0x07 ∧
          d.Timestamp = (id >>> (layout.SequenceBits + layout.NodeBits)) &&& layout.MaxTimestamp ∧
          d.NodeID = (id >>> layout.SequenceBits) &&& layout.MaxNodeID ∧
          d.Sequence = id &&& layout.MaxSequence ∧
          ((d.Timestamp : Int) * layout.TimeUnit < 2 ^ 63 →
            d.TimeNs = layout.EpochNs + (d.Timestamp : Int) * layout.TimeUnit) := by
  constructor
  · intro id
    simp only [Decode, extractVersion]
    cases hv : versionLayouts ((id >>> 61) &&& 0x07) with
    | none => simp
    | some layout => simp
  · intro id layout hv
    obtain ⟨hv0, rfl⟩ := versionLayouts_some hv
    simp only [Decode, extractVersion, hv]
    refine ⟨_, rfl, rfl, rfl, rfl, rfl, fun hlt => ?_⟩
    have hand := @Nat.and_le_right (id >>> (layoutV0.SequenceBits + layoutV0.NodeBits))
      layoutV0.MaxTimestamp
    have hmax := layoutV0_MaxTimestamp
    exact decodeTime_eq _ (by omega) hlt

/-- Witness for C7 at a concrete id. -/
theorem C7_witness :
    ∃ d, Decode 999 = Except.ok d ∧
      d.Version = (999 >>> 61) &&& 0x07 ∧
      d.Timestamp = (999 >>> (layoutV0.SequenceBits + layoutV0.NodeBits)) &&& layoutV0.MaxTimestamp ∧
      d.NodeID = (999 >>> layoutV0.SequenceBits) &&& layoutV0.MaxNodeID ∧
      d.Sequence = 999 &&& layoutV0.MaxSequence ∧
      ((d.Timestamp : Int) * layoutV0.TimeUnit < 2 ^ 63 →
        d.TimeNs = layoutV0.EpochNs + (d.Timestamp : Int) * layoutV0.TimeUnit) :=
  C7_decode_spec.2 999 layoutV0 (by decide)

/-- C7 counterexample: at the id whose (in-range) timestamp field is
2 ^ 45 - 1, the decoded absolute time differs from
epoch + Timestamp x timeUnit, because the int64 duration product
wraps. -/
theorem C7_counterexample :
    ∃ d, Decode ((2 ^ 45 - 1) * 2 ^ 16) = Except.ok d ∧
      d.Timestamp = 2 ^ 45 - 1 ∧
      d.TimeNs ≠ layoutV0.EpochNs + (d.Timestamp : Int) * layoutV0.TimeUnit := by
  refine ⟨(⟨0, 2 ^ 45 - 1, 0, 0,
      layoutV0.EpochNs + int64Wrap (toInt64 (2 ^ 45 - 1) * layoutV0.TimeUnit)⟩ : DecodedID),
    ?_, rfl, ?_⟩
  · have hdec := Decode_fields_v0 (2 ^ 45 - 1) 0 0 (by omega) (by omega) (by omega)
    simpa using hdec
  · decide

theorem nextID_ok_statics {g : Generator} {clock : List Nat} {id : Nat} {g2 : Generator}
    {rest : List Nat} (h : NextID g clock = some (NextIDResult.ok id g2 rest)) :
    g2.layout = g.layout ∧ g2.nodeID = g.nodeID ∧ g2.versionShift = g.versionShift ∧
      g2.timeShift = g.timeShift ∧ g2.nodeShift = g.nodeShift ∧
      g2.sequence ≤ g.layout.MaxSequence := by
  match clock with
  | [] => exact absurd h (by simp [NextID])
  | t0 :: rest0 =>
    simp only [NextID] at h
    by_cases hov : t0 > g.layout.MaxTimestamp
    · rw [if_pos hov] at h
      simp at h
    · rw [if_neg hov] at h
      cases hrb : rollbackWait g.lastTimestamp t0 rest0 with
      | none => rw [hrb] at h; simp at h
      | some pr =>
        obtain ⟨t1, rest1⟩ := pr
        rw [hrb] at h
        dsimp only at h
        by_cases ht1 : t1 = g.lastTimestamp
        · rw [if_pos ht1] at h
          by_cases hseq : (g.sequence + 1) &&& g.layout.MaxSequence = 0
          · rw [if_pos hseq] at h
            cases hwn : waitNextTimestamp t1 rest1 with
            | none => rw [hwn] at h; simp at h
            | some pr2 =>
              obtain ⟨t2, rest2⟩ := pr2
              rw [hwn] at h
              dsimp only at h
              simp only [Option.some.injEq, NextIDResult.ok.injEq] at h
              obtain ⟨-, hg2, -⟩ := h
              subst hg2
              exact ⟨rfl, rfl, rfl, rfl, rfl, Nat.and_le_right⟩
          · rw [if_neg hseq] at h
            simp only [Option.some.injEq, NextIDResult.ok.injEq] at h
            obtain ⟨-, hg2, -⟩ := h
            subst hg2
            exact ⟨rfl, rfl, rfl, rfl, rfl, Nat.and_le_right⟩
        · rw [if_neg ht1] at h
          simp only [Option.some.injEq, NextIDResult.ok.injEq] at h
          obtain ⟨-, hg2, -⟩ := h
          subst hg2
          exact ⟨rfl, rfl, rfl, rfl, rfl, Nat.zero_le _⟩

/-- C9: a successful NextID call changes only lastTimestamp and
sequence (layout, nodeID and the three shifts are unchanged) and leaves
the sequence within 0..MaxSequence; a failing call leaves the whole
state unchanged; NewGenerator establishes lastTimestamp = 0 and
sequence = 0 ≤ MaxSequence. -/
theorem C9_state_isolation :
    (∀ (g : Generator) (clock : List Nat) (id : Nat) (g2 : Generator) (rest : List Nat),
        NextID g clock = some (NextIDResult.ok id g2 rest) →
          g2.layout = g.layout ∧ g2.nodeID = g.nodeID ∧ g2.versionShift = g.versionShift ∧
            g2.timeShift = g.timeShift ∧ g2.nodeShift = g.nodeShift ∧
            g2.sequence ≤ g.layout.MaxSequence) ∧
      (∀ (g : Generator) (clock : List Nat) (e : SnowflakeError) (g2 : Generator),
          NextID g clock = some (NextIDResult.err e g2) → g2 = g) ∧
      ∀ (cfg : Config) (g : Generator), NewGenerator cfg = Except.ok g →
        g.lastTimestamp = 0 ∧ g.sequence = 0 ∧ g.sequence ≤ g.layout.MaxSequence := by
  refine ⟨fun g clock id g2 rest h => nextID_ok_statics h, ?_, ?_⟩
  · intro g clock e g2 h
    match clock with
    | [] => exact absurd h (by simp [NextID])
    | t0 :: rest0 => exact ((nextID_err_iff g t0 rest0 e g2).mp h).2.2
  · intro cfg g h
    simp only [NewGenerator] at h
    cases hv : versionLayouts cfg.Version with
    | none => rw [hv] at h; simp at h
    | some layout =>
      rw [hv] at h
      dsimp only at h
      by_cases hnode : cfg.NodeID > layout.MaxNodeID
      · rw [if_pos hnode] at h
        simp at h
      · rw [if_neg hnode] at h
        simp only [Except.ok.injEq] at h
        subst h
        exact ⟨rfl, rfl, Nat.zero_le _⟩

/-- Witness for C9 at a concrete successful call. -/
theorem C9_witness :
    (genFrom layoutV0 1 5 0).layout = gEx.layout ∧
      (genFrom layoutV0 1 5 0).nodeID = gEx.nodeID ∧
      (genFrom layoutV0 1 5 0).versionShift = gEx.versionShift ∧
      (genFrom layoutV0 1 5 0).timeShift = gEx.timeShift ∧
      (genFrom layoutV0 1 5 0).nodeShift = gEx.nodeShift ∧
      (genFrom layoutV0 1 5 0).sequence ≤ gEx.layout.MaxSequence :=
  C9_state_isolation.1 gEx [5] 327936 (genFrom layoutV0 1 5 0) [] (by decide)

/-- C10: Decode validates nothing beyond the version lookup — every id
below 2 ^ 61 (top three bits zero, the registered version) decodes
successfully, including values no generator ever produced, and
Decode 0 yields all-zero fields with the version-0 epoch as its
time. -/
theorem C10_decode_lenient :
    (∀ id : Nat, id < 2 ^ 61 → ∃ d, Decode id = Except.ok d) ∧
      Decode 0 = Except.ok
        ⟨0, 0, 0, 0, layoutV0.EpochNs⟩ := by
  constructor
  · intro id h
    simp only [Decode, extractVersion_lt id h]
    exact ⟨_, rfl⟩
  · rfl

/-- Witness for C10 at a concrete id. -/
theorem C10_witness : ∃ d, Decode 123456 = Except.ok d :=
  C10_decode_lenient.1 123456 (by decide)
